import Mathlib

/-!
# Verification of the GPT-4o vision fine-tuning notebook glue code

Shallow embedding of the pure/deterministic logic in
`labs/fine_tuning_notebooks/gpt_fine_tuning/gpt_4o_vision_fine_tuning.ipynb`:

* the tenacity retry decorator applied to `query_image` and `evaluate`
  (`@retry(stop=stop_after_attempt(3), wait=wait_fixed(10))`);
* the accuracy aggregation cell (`value_counts().get("CORRECT", 0)` divided by
  `ds_test_eval.shape[0]`);
* `show_ft_metrics` (pandas `dropna` / `!= -1.0` filtering and
  `rolling(window).mean()` smoothing);
* `encode_image` (RGB conversion, JPEG save, `base64.b64encode`);
* the dataset-conversion loop of the "Create dataset splits" cell
  (per-row message construction, `json.dump` + newline per record,
  `except KeyError` skip-and-continue).

Python exceptions are modelled with an explicit `Except` result; NaN cells of a
pandas frame are modelled as `Option.none`; machine reals are modelled as `Rat`
(every number the claims touch is produced and consumed exactly, no rounding is
involved in the verified properties).
-/

/-- Python exceptions that the embedded code can raise.  `retryError e` models
`tenacity.RetryError` whose `last_attempt` holds the exception `e`. -/
inductive PyExc where
  | valueError : String → PyExc
  | keyError : String → PyExc
  | zeroDivisionError : PyExc
  | retryError : PyExc → PyExc
deriving Repr, DecidableEq

deriving instance DecidableEq for Except

/-! ## The tenacity retry wrapper

`@retry(stop=stop_after_attempt(s), wait=wait_fixed(w))` from tenacity:
attempts are numbered from 1; a successful attempt returns its value; after a
failed attempt the stop condition `attempt_number >= s` is checked, and when it
holds tenacity raises `RetryError(last_attempt)` (the default `reraise=False`
of the decorator is in force in the notebook, which never sets `reraise`);
otherwise it sleeps `w` seconds and runs the next attempt.

`retryRun w f fuel k t` runs attempt `k` with `fuel` retries still allowed and
`t` seconds of sleep accumulated so far.  The wrapped call is modelled as
`f : Nat → Except PyExc α` giving the outcome of each numbered attempt.  The
result records (outcome, number of attempts made, total seconds slept). -/
def retryRun (waitSecs : Nat) (f : Nat → Except PyExc α) :
    Nat → Nat → Nat → Except PyExc α × Nat × Nat
  | fuel, attempt, waited =>
    match f attempt, fuel with
    | .ok v, _ => (.ok v, attempt, waited)
    | .error e, 0 => (.error (.retryError e), attempt, waited)
    | .error _, fuel + 1 => retryRun waitSecs f fuel (attempt + 1) (waited + waitSecs)

/-- `retrying s w f`: the call `f` wrapped in
`@retry(stop=stop_after_attempt(s), wait=wait_fixed(w))`. -/
def retrying (stopAttempts waitSecs : Nat) (f : Nat → Except PyExc α) :
    Except PyExc α × Nat × Nat :=
  retryRun waitSecs f (stopAttempts - 1) 1 0

/-- `query_image` of the notebook: the body (encode the image, call
`client.chat.completions.create`, return `response.choices[0].message.content`)
is a remote call, modelled by the per-attempt outcome function `attempt`; the
decorator parameters are those of the source:
`stop_after_attempt(3)`, `wait_fixed(10)`. -/
def query_image (attempt : Nat → Except PyExc String) :
    Except PyExc String × Nat × Nat :=
  retrying 3 10 attempt

/-- `evaluate` of the notebook: same decorator, the judge chat-completion call
is modelled by the per-attempt outcome function `attempt`. -/
def evaluate (attempt : Nat → Except PyExc String) :
    Except PyExc String × Nat × Nat :=
  retrying 3 10 attempt

/-! ## Accuracy aggregation cell -/

/-- Python's `/` on integers: raises `ZeroDivisionError` on a zero divisor,
otherwise produces the exact quotient (a float in Python; the values the
notebook divides are small counts, represented exactly). -/
def pyDiv (a b : Nat) : Except PyExc Rat :=
  if b = 0 then .error .zeroDivisionError else .ok ((a : Rat) / (b : Rat))

/-- `df[col].value_counts().get("CORRECT", 0)` over the list of verdict strings
of an evaluation column: the number of rows whose verdict is exactly
`"CORRECT"`. -/
def correct_count (verdicts : List String) : Nat :=
  (verdicts.filter (fun v => v = "CORRECT")).length

/-- The accuracy computation of the comparison cell:
`correct_count / eval_observations` where `eval_observations` is
`ds_test_eval.shape[0]`, i.e. the number of evaluated rows. -/
def accuracy_agg (verdicts : List String) : Except PyExc Rat :=
  pyDiv (correct_count verdicts) verdicts.length

/-! ## Theorems: retry wrapper -/

/-- C4: if the wrapped function raises on its first two attempts and succeeds
on the third, the wrapper (as applied to `query_image` and `evaluate`) returns
the third attempt's value, makes exactly 3 calls, and slept the fixed 10-second
delay after each of the two failures. -/
theorem retry_two_failures_then_success
    (f : Nat → Except PyExc String) (v : String) (e₁ e₂ : PyExc)
    (h1 : f 1 = .error e₁) (h2 : f 2 = .error e₂) (h3 : f 3 = .ok v) :
    query_image f = (.ok v, 3, 20) ∧ evaluate f = (.ok v, 3, 20) := by
  have : retrying 3 10 f = (.ok v, 3, 20) := by
    simp [retrying, retryRun, h1, h2, h3]
  exact ⟨this, this⟩

/-- Witness for `retry_two_failures_then_success` at a concrete function that
fails twice and then succeeds. -/
theorem retry_two_failures_then_success_witness :
    query_image
        (fun k => if k ≤ 2 then .error (.valueError "boom") else .ok "42")
      = (.ok "42", 3, 20) :=
  (retry_two_failures_then_success
    (fun k => if k ≤ 2 then .error (.valueError "boom") else .ok "42")
    "42" (.valueError "boom") (.valueError "boom")
    (by decide) (by decide) (by decide)).1

/-- C1 (counterexample): a function whose every attempt raises
`ValueError("boom")` exhausts the 3 attempts, but the exception the caller
sees is `tenacity.RetryError` wrapping the last failure, not the
`ValueError` raised by the final attempt itself: the claim that the last
failure is propagated unchanged is false. -/
theorem retry_exhaustion_not_unchanged :
    (query_image (fun _ => .error (.valueError "boom"))).1
        = .error (.retryError (.valueError "boom"))
      ∧ (query_image (fun _ => .error (.valueError "boom"))).1
        ≠ .error (.valueError "boom") := by
  decide

/-- C1 (amended): for every wrapped call whose every attempt raises, the
wrapper makes exactly 3 attempts with the fixed 10-second delay between
attempts (20 seconds of sleeping in total), and then raises
`tenacity.RetryError` wrapping the exception raised by the final attempt
(tenacity's default `reraise=False` is in force, so the last failure is
propagated wrapped, not unchanged). -/
theorem retry_exhaustion_wraps_last_error
    (f : Nat → Except PyExc String) (e : Nat → PyExc)
    (h : ∀ k, 1 ≤ k → k ≤ 3 → f k = .error (e k)) :
    query_image f = (.error (.retryError (e 3)), 3, 20)
      ∧ evaluate f = (.error (.retryError (e 3)), 3, 20) := by
  have : retrying 3 10 f = (.error (.retryError (e 3)), 3, 20) := by
    simp [retrying, retryRun, h 1 (by omega) (by omega), h 2 (by omega) (by omega),
      h 3 (by omega) (by omega)]
  exact ⟨this, this⟩

/-- Witness for `retry_exhaustion_wraps_last_error` at a concrete
always-failing function. -/
theorem retry_exhaustion_wraps_last_error_witness :
    query_image (fun k => .error (.valueError (String.mk (List.replicate k 'x'))))
      = (.error (.retryError (.valueError "xxx")), 3, 20) := by
  have := (retry_exhaustion_wraps_last_error
    (fun k => .error (.valueError (String.mk (List.replicate k 'x'))))
    (fun k => .valueError (String.mk (List.replicate k 'x')))
    (fun _ _ _ => rfl)).1
  simpa using this

/-! ## Theorems: accuracy aggregation -/

/-- C2: evaluated over zero rows, the accuracy computation of the comparison
cell performs Python's `0 / 0` and raises `ZeroDivisionError`; no guard and no
sentinel value exist in the cell. -/
theorem accuracy_agg_empty_raises :
    accuracy_agg [] = .error .zeroDivisionError := by
  rfl

/-- C8: over any nonempty set of evaluated rows, the reported accuracy equals
the number of rows whose judge verdict is exactly `"CORRECT"` divided by the
number of evaluated rows, and that ratio lies between 0 and 1 inclusive. -/
theorem accuracy_agg_ratio (verdicts : List String) (hne : verdicts ≠ []) :
    accuracy_agg verdicts
        = .ok ((correct_count verdicts : Rat) / (verdicts.length : Rat))
      ∧ 0 ≤ ((correct_count verdicts : Rat) / (verdicts.length : Rat))
      ∧ ((correct_count verdicts : Rat) / (verdicts.length : Rat)) ≤ 1 := by
  have hlen : verdicts.length ≠ 0 := by
    simpa [List.length_eq_zero] using hne
  have hposn : 0 < verdicts.length := Nat.pos_of_ne_zero hlen
  have hpos : (0 : Rat) < (verdicts.length : Rat) := by exact_mod_cast hposn
  refine ⟨by simp [accuracy_agg, pyDiv, hlen], ?_, ?_⟩
  · positivity
  · rw [div_le_one hpos]
    have hle : correct_count verdicts ≤ verdicts.length :=
      List.length_filter_le _ _
    exact_mod_cast hle

/-- Witness for `accuracy_agg_ratio` on a concrete evaluation column. -/
theorem accuracy_agg_ratio_witness :
    accuracy_agg ["CORRECT", "INCORRECT", "CORRECT", "INCORRECT"]
      = .ok ((correct_count ["CORRECT", "INCORRECT", "CORRECT", "INCORRECT"] : Rat) / 4) := by
  have := (accuracy_agg_ratio ["CORRECT", "INCORRECT", "CORRECT", "INCORRECT"]
    (by decide)).1
  simpa using this

/-! ## show_ft_metrics: pandas frame model, filtering, rolling mean

A metrics frame is a list of rows; a row is an association list from column
name to cell value, with `none` standing for a NaN cell.  `rolling(window)`
with pandas' default `min_periods = window` yields, at every position, the mean
of the `window` cells ending there when all of them exist and are non-NaN, and
NaN otherwise (in particular at the first `window - 1` positions). -/

abbrev MetricsRow := List (String × Option Rat)

/-- `df[c]` for a frame: raises `KeyError c` unless every row carries the
column, otherwise the column's cells in row order. -/
def colValues (df : List MetricsRow) (c : String) :
    Except PyExc (List (Option Rat)) :=
  if _h : ∀ r ∈ df, (r.lookup c).isSome then
    .ok (df.map (fun r => (r.lookup c).getD none))
  else .error (.keyError c)

/-- Mean of a window of cells: defined only when the window is nonempty and
every cell is present (pandas `min_periods = window` behaviour). -/
def optMean (l : List (Option Rat)) : Option Rat :=
  match l.mapM id with
  | some vs => if vs = [] then none else some (vs.sum / (l.length : Rat))
  | none => none

/-- `series.rolling(window=w).mean()` with pandas defaults: position `i` holds
NaN while the window is not yet full (`i + 1 < w`) and otherwise the mean of
the `w` cells ending at `i` (NaN as soon as one of them is NaN). -/
def rollingMean (window : Nat) (xs : List (Option Rat)) : List (Option Rat) :=
  (List.range xs.length).map (fun i =>
    if i + 1 < window then none
    else optMean ((xs.take (i + 1)).drop (i + 1 - window)))

/-- `df.rolling(window=w).mean()[c]` as `show_ft_metrics` reads it: fetch the
column, then smooth it. -/
def smoothCol (df : List MetricsRow) (window : Nat) (c : String) :
    Except PyExc (List (Option Rat)) :=
  (colValues df c).map (rollingMean window)

/-- The pandas row predicate of `show_ft_metrics`:
`dropna(subset=['valid_loss'])` keeps rows with a non-NaN `valid_loss`, and the
subsequent `filtered_df['valid_loss'] != -1.0` keeps those whose value differs
from `-1.0`. -/
def validRowKept (r : MetricsRow) : Bool :=
  match r.lookup "valid_loss" with
  | some (some v) => v ≠ (-1 : Rat)
  | _ => false

/-- The four curves `show_ft_metrics` plots, each as (x-series, y-series). -/
structure FtPlots where
  train_loss_curve : List (Option Rat) × List (Option Rat)
  train_acc_curve : List (Option Rat) × List (Option Rat)
  valid_loss_curve : List (Option Rat) × List (Option Rat)
  valid_acc_curve : List (Option Rat) × List (Option Rat)
deriving Repr, DecidableEq

/-- `show_ft_metrics(results_df, window_size)` of the notebook: drop the rows
whose `valid_loss` is NaN or `-1.0` into `filtered_df`, smooth both frames
with `rolling(window_size).mean()`, and plot train loss / train mean token
accuracy against the smoothed `step` of the full frame and validation loss /
validation mean token accuracy against the smoothed `step` of the filtered
frame.  A missing column raises `KeyError` (first raised by
`dropna(subset=['valid_loss'])`, then by the column reads in plotting
order). -/
def show_ft_metrics (results_df : List MetricsRow) (window_size : Nat) :
    Except PyExc FtPlots := do
  let _ ← colValues results_df "valid_loss"
  let filtered_df := results_df.filter validRowKept
  let step_smooth ← smoothCol results_df window_size "step"
  let train_loss_smooth ← smoothCol results_df window_size "train_loss"
  let train_acc_smooth ← smoothCol results_df window_size "train_mean_token_accuracy"
  let fstep_smooth ← smoothCol filtered_df window_size "step"
  let valid_loss_smooth ← smoothCol filtered_df window_size "valid_loss"
  let valid_acc_smooth ← smoothCol filtered_df window_size "valid_mean_token_accuracy"
  pure ⟨(step_smooth, train_loss_smooth), (step_smooth, train_acc_smooth),
        (fstep_smooth, valid_loss_smooth), (fstep_smooth, valid_acc_smooth)⟩

/-- The metrics columns `show_ft_metrics` actually reads, in plotting order. -/
def codeMetricsColumns : List String :=
  ["step", "train_loss", "train_mean_token_accuracy",
   "valid_loss", "valid_mean_token_accuracy"]

/-- Modelled from the spec: the data-model section of the specification says a
metrics row is `{step, train_loss, train_accuracy, validation_loss,
validation_accuracy}`; this is the spec's claimed column set, to be compared
with `codeMetricsColumns` from the source. -/
def specMetricsColumns : List String :=
  ["step", "train_loss", "train_accuracy",
   "validation_loss", "validation_accuracy"]

/-- A one-row frame carrying exactly the columns the spec names. -/
def specNamedRow : MetricsRow :=
  specMetricsColumns.map (fun c => (c, some 0))

/-! ## Theorems: metrics smoothing and plotting -/

/-- A frame whose rows all carry column `c` yields that column. -/
theorem colValues_ok {df : List MetricsRow} {c : String}
    (h : ∀ r ∈ df, (r.lookup c).isSome) :
    colValues df c = .ok (df.map (fun r => (r.lookup c).getD none)) :=
  dif_pos h

/-- Conversely, a successful column read is the cell map. -/
theorem colValues_ok_elim {df : List MetricsRow} {c : String}
    {vs : List (Option Rat)} (h : colValues df c = .ok vs) :
    vs = df.map (fun r => (r.lookup c).getD none) := by
  unfold colValues at h
  split at h
  · exact (Except.ok.inj h).symm
  · exact absurd h (by simp)

/-- The rolling mean keeps the series length. -/
theorem rollingMean_length (w : Nat) (xs : List (Option Rat)) :
    (rollingMean w xs).length = xs.length := by
  simp [rollingMean]

/-- Below a full window the rolling mean is NaN. -/
theorem rollingMean_getElem_lt (w : Nat) (xs : List (Option Rat)) (i : Nat)
    (hi : i < xs.length) (hlt : i + 1 < w) :
    (rollingMean w xs)[i]? = some none := by
  simp [rollingMean, List.getElem?_map, List.getElem?_range, hi, hlt]

/-- From the `w`-th position on, the rolling mean is the mean of the window of
`w` cells ending there, and that window has length exactly `w`. -/
theorem rollingMean_getElem_ge (w : Nat) (xs : List (Option Rat)) (i : Nat)
    (hi : i < xs.length) (hge : w ≤ i + 1) :
    (rollingMean w xs)[i]? = some (optMean ((xs.take (i + 1)).drop (i + 1 - w)))
      ∧ ((xs.take (i + 1)).drop (i + 1 - w)).length = w := by
  constructor
  · simp [rollingMean, List.getElem?_map, List.getElem?_range, hi, Nat.not_lt.2 hge]
  · simp only [List.length_drop, List.length_take]
    omega

/-- C6: when `show_ft_metrics` smooths a column of the metrics frame with a
rolling window of size `w ≥ 1`, the smoothed series has the frame's length,
its first `w - 1` entries are NaN (the window only yields a value once it is
full), and every further entry is the mean of the `w` preceding cells (NaN if
one of those cells is NaN, per pandas `min_periods` default). -/
theorem smoothCol_rolling_window (df : List MetricsRow) (w : Nat) (c : String)
    (ys : List (Option Rat)) (_hw : 0 < w) (h : smoothCol df w c = .ok ys) :
    ys.length = df.length
      ∧ (∀ i, i < df.length → i + 1 < w → ys[i]? = some none)
      ∧ (∀ i, i < df.length → w ≤ i + 1 →
          ys[i]? = some (optMean
              (((df.map (fun r => (r.lookup c).getD none)).take (i + 1)).drop (i + 1 - w)))
            ∧ (((df.map (fun r => (r.lookup c).getD none)).take (i + 1)).drop (i + 1 - w)).length
                = w) := by
  unfold smoothCol at h
  match hcv : colValues df c with
  | .error e => rw [hcv] at h; exact absurd h (by simp [Except.map])
  | .ok vs =>
    rw [hcv] at h
    have hvs := colValues_ok_elim hcv
    have hys : ys = rollingMean w vs := by
      simpa [Except.map] using h.symm
    subst hvs hys
    have hlen : (df.map (fun r => (r.lookup c).getD none)).length = df.length :=
      List.length_map _ _
    refine ⟨by rw [rollingMean_length, hlen], ?_, ?_⟩
    · intro i hi hlt
      exact rollingMean_getElem_lt w _ i (by rwa [hlen]) hlt
    · intro i hi hge
      exact rollingMean_getElem_ge w _ i (by rwa [hlen]) hge

/-- Witness for `smoothCol_rolling_window` on a three-row frame with window 2:
the first smoothed entry is NaN and the second is the mean of cells 1 and 2. -/
theorem smoothCol_rolling_window_witness :
    (rollingMean 2 [some 1, some 2, (some 3 : Option Rat)])[0]? = some none
      ∧ (rollingMean 2 [some 1, some 2, (some 3 : Option Rat)])[1]?
          = some (optMean [some 1, some 2]) := by
  have h : smoothCol [[("step", (some 1 : Option Rat))], [("step", some 2)],
        [("step", some 3)]] 2 "step"
      = .ok (rollingMean 2 [some 1, some 2, (some 3 : Option Rat)]) := rfl
  have hmain := smoothCol_rolling_window _ 2 "step" _ (by decide) h
  refine ⟨?_, ?_⟩
  · exact hmain.2.1 0 (by decide) (by decide)
  · have := (hmain.2.2 1 (by decide) (by decide)).1
    simpa using this


/-- Eliminating a successful `Except` bind. -/
theorem except_bind_ok {ε α β : Type} {x : Except ε α} {f : α → Except ε β}
    {b : β} (h : x >>= f = .ok b) : ∃ a, x = .ok a ∧ f a = .ok b := by
  cases x with
  | ok a => exact ⟨a, rfl, h⟩
  | error e => simp [Bind.bind, Except.bind] at h

/-- A successful smoothed column read is the rolling mean of the cell map. -/
theorem smoothCol_ok_elim {df : List MetricsRow} {w : Nat} {c : String}
    {ys : List (Option Rat)} (h : smoothCol df w c = .ok ys) :
    ys = rollingMean w (df.map (fun r => (r.lookup c).getD none)) := by
  unfold smoothCol at h
  match hcv : colValues df c with
  | .error e => rw [hcv] at h; exact absurd h (by simp [Except.map])
  | .ok vs =>
    rw [hcv] at h
    rw [← colValues_ok_elim hcv]
    simpa [Except.map] using h.symm

/-- C7 (counterexample): a metrics frame whose rows carry exactly the fields
the specification names — step, train_loss, train_accuracy, validation_loss,
validation_accuracy — cannot be plotted: `show_ft_metrics` raises `KeyError`
on `valid_loss` (already in `dropna(subset=['valid_loss'])`), so the
visualizer does not read its series from columns of those names. -/
theorem metrics_columns_mismatch :
    show_ft_metrics [specNamedRow] 5 = .error (.keyError "valid_loss")
      ∧ "valid_loss" ∉ specMetricsColumns
      ∧ "train_accuracy" ∈ specMetricsColumns
      ∧ "train_accuracy" ∉ codeMetricsColumns := by
  decide

/-- C7 (amended): the metrics rows consumed for plotting have the fields
step, train_loss, train_mean_token_accuracy, valid_loss,
valid_mean_token_accuracy, and `show_ft_metrics` reads its loss and accuracy
series from columns of exactly these names: any frame whose rows carry them
plots successfully. -/
theorem show_ft_metrics_reads_code_columns
    (df : List MetricsRow) (w : Nat)
    (h : ∀ r ∈ df, ∀ c ∈ codeMetricsColumns, (r.lookup c).isSome) :
    (show_ft_metrics df w).isOk := by
  have hf : ∀ c ∈ codeMetricsColumns,
      ∀ r ∈ df.filter validRowKept, (r.lookup c).isSome :=
    fun c hc r hr => h r (List.mem_of_mem_filter hr) c hc
  have h1 : ∀ r ∈ df, (r.lookup "step").isSome :=
    fun r hr => h r hr _ (by simp [codeMetricsColumns])
  have h2 : ∀ r ∈ df, (r.lookup "train_loss").isSome :=
    fun r hr => h r hr _ (by simp [codeMetricsColumns])
  have h3 : ∀ r ∈ df, (r.lookup "train_mean_token_accuracy").isSome :=
    fun r hr => h r hr _ (by simp [codeMetricsColumns])
  have h4 : ∀ r ∈ df, (r.lookup "valid_loss").isSome :=
    fun r hr => h r hr _ (by simp [codeMetricsColumns])
  have h5 : ∀ r ∈ df.filter validRowKept, (r.lookup "step").isSome :=
    hf _ (by simp [codeMetricsColumns])
  have h6 : ∀ r ∈ df.filter validRowKept, (r.lookup "valid_loss").isSome :=
    hf _ (by simp [codeMetricsColumns])
  have h7 : ∀ r ∈ df.filter validRowKept,
      (r.lookup "valid_mean_token_accuracy").isSome :=
    hf _ (by simp [codeMetricsColumns])
  simp [show_ft_metrics, smoothCol, colValues_ok h1, colValues_ok h2,
    colValues_ok h3, colValues_ok h4, colValues_ok h5, colValues_ok h6,
    colValues_ok h7, Bind.bind, Except.bind, Except.map, Except.isOk,
    Except.toBool, pure, Except.pure]

/-- Witness for `show_ft_metrics_reads_code_columns` on a one-row frame with
exactly the columns the source reads. -/
theorem show_ft_metrics_reads_code_columns_witness :
    (show_ft_metrics [codeMetricsColumns.map (fun c => (c, some 0))] 5).isOk :=
  show_ft_metrics_reads_code_columns
    [codeMetricsColumns.map (fun c => (c, some 0))] 5 (by decide)

/-- C10: whenever `show_ft_metrics` succeeds, the validation-loss and
validation-accuracy curves are smoothed over exactly the rows whose
`valid_loss` is present (not NaN) and differs from the sentinel `-1.0`
(every kept row carries such a value), while the training-loss and
training-accuracy curves are smoothed over all rows of the frame
unfiltered. -/
theorem valid_curves_filtered_train_curves_not
    (df : List MetricsRow) (w : Nat) (p : FtPlots)
    (h : show_ft_metrics df w = .ok p) :
    p.valid_loss_curve.2
        = rollingMean w ((df.filter validRowKept).map
            (fun r => (r.lookup "valid_loss").getD none))
      ∧ p.valid_acc_curve.2
        = rollingMean w ((df.filter validRowKept).map
            (fun r => (r.lookup "valid_mean_token_accuracy").getD none))
      ∧ (∀ r ∈ df.filter validRowKept,
          ∃ v : Rat, r.lookup "valid_loss" = some (some v) ∧ v ≠ -1)
      ∧ p.train_loss_curve.2
        = rollingMean w (df.map (fun r => (r.lookup "train_loss").getD none))
      ∧ p.train_acc_curve.2
        = rollingMean w (df.map
            (fun r => (r.lookup "train_mean_token_accuracy").getD none)) := by
  have hkept : ∀ r ∈ df.filter validRowKept,
      ∃ v : Rat, r.lookup "valid_loss" = some (some v) ∧ v ≠ -1 := by
    intro r hr
    have hb : validRowKept r = true := List.of_mem_filter hr
    unfold validRowKept at hb
    match hlv : r.lookup "valid_loss" with
    | none => rw [hlv] at hb; simp at hb
    | some none => rw [hlv] at hb; simp at hb
    | some (some v) =>
      rw [hlv] at hb
      simp only [decide_eq_true_eq] at hb
      exact ⟨v, rfl, by simpa using hb⟩
  unfold show_ft_metrics at h
  obtain ⟨vl0, hvl0, h⟩ := except_bind_ok h
  obtain ⟨step_s, hstep, h⟩ := except_bind_ok h
  obtain ⟨tl, htl, h⟩ := except_bind_ok h
  obtain ⟨ta, hta, h⟩ := except_bind_ok h
  obtain ⟨fs, hfs, h⟩ := except_bind_ok h
  obtain ⟨fvl, hfvl, h⟩ := except_bind_ok h
  obtain ⟨fva, hfva, h⟩ := except_bind_ok h
  have hp : p = ⟨(step_s, tl), (step_s, ta), (fs, fvl), (fs, fva)⟩ :=
    (Except.ok.inj h).symm
  subst hp
  exact ⟨smoothCol_ok_elim hfvl, smoothCol_ok_elim hfva, hkept,
    smoothCol_ok_elim htl, smoothCol_ok_elim hta⟩

/-- Witness for `valid_curves_filtered_train_curves_not` on a two-row frame
where one row's `valid_loss` is the `-1.0` sentinel: the validation-loss curve
is the rolling mean over the filtered rows only. -/
theorem valid_curves_filtered_witness :
    (⟨(rollingMean 5 [some 1, some 6], rollingMean 5 [some 2, some 7]),
      (rollingMean 5 [some 1, some 6], rollingMean 5 [some 3, some 8]),
      (rollingMean 5 [some 1], rollingMean 5 [some 4]),
      (rollingMean 5 [some 1], rollingMean 5 [some 5])⟩ : FtPlots).valid_loss_curve.2
      = rollingMean 5 ((([[("step", some 1), ("train_loss", some 2),
            ("train_mean_token_accuracy", some 3), ("valid_loss", some 4),
            ("valid_mean_token_accuracy", some 5)],
          [("step", some 6), ("train_loss", some 7),
            ("train_mean_token_accuracy", some 8), ("valid_loss", some (-1)),
            ("valid_mean_token_accuracy", some 9)]] : List MetricsRow).filter
            validRowKept).map
          (fun r => (r.lookup "valid_loss").getD none)) := by
  have h : show_ft_metrics
      [[("step", some 1), ("train_loss", some 2),
          ("train_mean_token_accuracy", some 3), ("valid_loss", some 4),
          ("valid_mean_token_accuracy", some 5)],
        [("step", some 6), ("train_loss", some 7),
          ("train_mean_token_accuracy", some 8), ("valid_loss", some (-1)),
          ("valid_mean_token_accuracy", some 9)]] 5
      = .ok ⟨(rollingMean 5 [some 1, some 6], rollingMean 5 [some 2, some 7]),
          (rollingMean 5 [some 1, some 6], rollingMean 5 [some 3, some 8]),
          (rollingMean 5 [some 1], rollingMean 5 [some 4]),
          (rollingMean 5 [some 1], rollingMean 5 [some 5])⟩ := by decide
  exact (valid_curves_filtered_train_curves_not _ 5 _ h).1

/-! ## encode_image: PIL image, JPEG save, base64

A PIL image is modelled by its colour mode and an opaque pixel payload;
`convert('RGB')` switches the mode (the pixel transformation is PIL's and is
carried opaquely).  The JPEG encoder (`image.save(buffered, format="JPEG",
quality=q)`) is a foreign C routine, so it enters the model as a parameter
producing the byte list of the compressed image; every theorem holds for
every such encoder.  `base64.b64encode(...).decode("utf-8")` is RFC 4648
base64 over the byte list, embedded below together with its decoder. -/

structure PILImage where
  mode : String
  payload : List Nat
deriving Repr, DecidableEq

/-- `image.convert(m)`: the result has mode `m`; the pixel payload is carried
opaquely (no verified property inspects it). -/
def PILImage.convert (image : PILImage) (m : String) : PILImage :=
  { image with mode := m }

/-- The base64 alphabet: index 0–25 to `A`–`Z`, 26–51 to `a`–`z`,
52–61 to `0`–`9`, 62 to `+`, 63 to `/`. -/
def b64Char (n : Nat) : Char :=
  if n < 26 then Char.ofNat (65 + n)
  else if n < 52 then Char.ofNat (97 + (n - 26))
  else if n < 62 then Char.ofNat (48 + (n - 52))
  else if n = 62 then '+'
  else '/'

/-- `base64.b64encode`: bytes taken three at a time into four alphabet
characters, the final group padded with `=`. -/
def b64encode : List Nat → List Char
  | [] => []
  | [b1] => [b64Char (b1 / 4), b64Char (b1 % 4 * 16), '=', '=']
  | [b1, b2] =>
    [b64Char (b1 / 4), b64Char (b1 % 4 * 16 + b2 / 16), b64Char (b2 % 16 * 4), '=']
  | b1 :: b2 :: b3 :: rest =>
    b64Char (b1 / 4) :: b64Char (b1 % 4 * 16 + b2 / 16)
      :: b64Char (b2 % 16 * 4 + b3 / 64) :: b64Char (b3 % 64) :: b64encode rest

/-- Value of a base64 alphabet character. -/
def b64Val (c : Char) : Option Nat :=
  if 65 ≤ c.toNat ∧ c.toNat ≤ 90 then some (c.toNat - 65)
  else if 97 ≤ c.toNat ∧ c.toNat ≤ 122 then some (c.toNat - 71)
  else if 48 ≤ c.toNat ∧ c.toNat ≤ 57 then some (c.toNat + 4)
  else if c = '+' then some 62
  else if c = '/' then some 63
  else none

/-- `base64.b64decode` on well-padded input: four characters at a time, the
final group possibly carrying one or two `=` padding characters; anything
else (stray characters, padding not at the end, length not a multiple of
four) fails. -/
def b64decode : List Char → Option (List Nat)
  | [] => some []
  | c1 :: c2 :: c3 :: c4 :: rest =>
    if c3 = '=' ∧ c4 = '=' ∧ rest = [] then do
      let n1 ← b64Val c1
      let n2 ← b64Val c2
      some [n1 * 4 + n2 / 16]
    else if c4 = '=' ∧ rest = [] then do
      let n1 ← b64Val c1
      let n2 ← b64Val c2
      let n3 ← b64Val c3
      some [n1 * 4 + n2 / 16, n2 % 16 * 16 + n3 / 4]
    else do
      let n1 ← b64Val c1
      let n2 ← b64Val c2
      let n3 ← b64Val c3
      let n4 ← b64Val c4
      let tail ← b64decode rest
      some ((n1 * 4 + n2 / 16) :: (n2 % 16 * 16 + n3 / 4) :: (n3 % 4 * 64 + n4) :: tail)
  | _ => none

/-- `encode_image(image, quality)` of the notebook: convert to RGB when the
mode differs from `'RGB'`, save as JPEG at the given quality (the foreign
encoder `jpegSave`), and return the base64 encoding of the bytes. -/
def encode_image (jpegSave : PILImage → Nat → List Nat)
    (image : PILImage) (quality : Nat := 100) : String :=
  let image := if image.mode ≠ "RGB" then image.convert "RGB" else image
  String.mk (b64encode (jpegSave image quality))

/-! ## Theorems: base64 and encode_image -/

/-- Decoding inverts the alphabet map. -/
theorem b64Val_b64Char_fin : ∀ n : Fin 64, b64Val (b64Char n.val) = some n.val := by
  decide

/-- Decoding inverts the alphabet map (Nat form). -/
theorem b64Val_b64Char {n : Nat} (h : n < 64) : b64Val (b64Char n) = some n :=
  b64Val_b64Char_fin ⟨n, h⟩

/-- No alphabet character is the padding character. -/
theorem b64Char_ne_pad_fin : ∀ n : Fin 64, b64Char n.val ≠ '=' := by
  decide

/-- No alphabet character is the padding character (Nat form). -/
theorem b64Char_ne_pad {n : Nat} (h : n < 64) : b64Char n ≠ '=' :=
  b64Char_ne_pad_fin ⟨n, h⟩

/-- Alphabet characters are ASCII. -/
theorem b64Char_ascii_fin : ∀ n : Fin 64, (b64Char n.val).toNat < 128 := by
  decide

/-- Alphabet characters are ASCII (Nat form). -/
theorem b64Char_ascii {n : Nat} (h : n < 64) : (b64Char n).toNat < 128 :=
  b64Char_ascii_fin ⟨n, h⟩

/-- Every character emitted when encoding bytes is ASCII. -/
theorem b64encode_ascii : ∀ bs : List Nat, (∀ b ∈ bs, b < 256) →
    ∀ c ∈ b64encode bs, c.toNat < 128
  | [], _ => by simp [b64encode]
  | [b1], h => by
    have hb1 : b1 < 256 := h b1 (by simp)
    intro c hc
    simp only [b64encode, List.mem_cons, List.not_mem_nil, or_false] at hc
    rcases hc with rfl | rfl | rfl | rfl
    · exact b64Char_ascii (by omega)
    · exact b64Char_ascii (by omega)
    · decide
    · decide
  | [b1, b2], h => by
    have hb1 : b1 < 256 := h b1 (by simp)
    have hb2 : b2 < 256 := h b2 (by simp)
    intro c hc
    simp only [b64encode, List.mem_cons, List.not_mem_nil, or_false] at hc
    rcases hc with rfl | rfl | rfl | rfl
    · exact b64Char_ascii (by omega)
    · exact b64Char_ascii (by omega)
    · exact b64Char_ascii (by omega)
    · decide
  | b1 :: b2 :: b3 :: rest, h => by
    have hb1 : b1 < 256 := h b1 (by simp)
    have hb2 : b2 < 256 := h b2 (by simp)
    have hb3 : b3 < 256 := h b3 (by simp)
    have hrest : ∀ b ∈ rest, b < 256 := fun b hb => h b (by simp [hb])
    intro c hc
    simp only [b64encode, List.mem_cons] at hc
    rcases hc with rfl | rfl | rfl | rfl | hc
    · exact b64Char_ascii (by omega)
    · exact b64Char_ascii (by omega)
    · exact b64Char_ascii (by omega)
    · exact b64Char_ascii (by omega)
    · exact b64encode_ascii rest hrest c hc

/-- Decoding inverts encoding on byte lists. -/
theorem b64decode_b64encode : ∀ bs : List Nat, (∀ b ∈ bs, b < 256) →
    b64decode (b64encode bs) = some bs
  | [], _ => by simp [b64encode, b64decode]
  | [b1], h => by
    have hb1 : b1 < 256 := h b1 (by simp)
    simp only [b64encode, b64decode]
    rw [if_pos (by simp)]
    rw [b64Val_b64Char (by omega), b64Val_b64Char (by omega)]
    simp only [Option.bind_eq_bind, Option.some_bind, Option.some.injEq,
      List.cons.injEq, and_true]
    omega
  | [b1, b2], h => by
    have hb1 : b1 < 256 := h b1 (by simp)
    have hb2 : b2 < 256 := h b2 (by simp)
    simp only [b64encode, b64decode]
    rw [if_neg (fun hq => b64Char_ne_pad (n := b2 % 16 * 4) (by omega) hq.1)]
    rw [if_pos (by simp)]
    rw [b64Val_b64Char (by omega), b64Val_b64Char (by omega),
      b64Val_b64Char (by omega)]
    simp only [Option.bind_eq_bind, Option.some_bind, Option.some.injEq,
      List.cons.injEq, and_true]
    constructor <;> omega
  | b1 :: b2 :: b3 :: rest, h => by
    have hb1 : b1 < 256 := h b1 (by simp)
    have hb2 : b2 < 256 := h b2 (by simp)
    have hb3 : b3 < 256 := h b3 (by simp)
    have hrest : ∀ b ∈ rest, b < 256 := fun b hb => h b (by simp [hb])
    have htail := b64decode_b64encode rest hrest
    match hrw : b64encode rest with
    | [] =>
      have hnil : rest = [] := by
        rw [hrw] at htail
        simpa [b64decode] using htail.symm
      subst hnil
      simp only [b64encode, hrw, b64decode]
      rw [if_neg (fun hq => b64Char_ne_pad (n := b2 % 16 * 4 + b3 / 64) (by omega) hq.1)]
      rw [if_neg (fun hq => b64Char_ne_pad (n := b3 % 64) (by omega) hq.1)]
      rw [b64Val_b64Char (by omega), b64Val_b64Char (by omega),
        b64Val_b64Char (by omega), b64Val_b64Char (by omega)]
      simp only [b64decode, Option.bind_eq_bind, Option.some_bind,
        Option.some.injEq, List.cons.injEq, and_true]
      refine ⟨by omega, by omega, by omega⟩
    | c :: cs =>
      rw [hrw] at htail
      simp only [b64encode, hrw, b64decode]
      rw [if_neg (fun hq => List.cons_ne_nil c cs hq.2.2)]
      rw [if_neg (fun hq => List.cons_ne_nil c cs hq.2)]
      rw [b64Val_b64Char (by omega), b64Val_b64Char (by omega),
        b64Val_b64Char (by omega), b64Val_b64Char (by omega)]
      simp only [Option.bind_eq_bind, Option.some_bind]
      rw [htail]
      simp only [Option.some_bind, Option.some.injEq, List.cons.injEq, and_true]
      refine ⟨by omega, by omega, by omega⟩

/-- C9: `encode_image` first converts any non-RGB image to RGB (the saved
image always has mode `'RGB'`), and for every image and every JPEG encoder
producing bytes it returns a valid base64 ASCII string of the JPEG-encoded
bytes: every character is ASCII and base64-decoding the string succeeds,
recovering exactly the encoder's bytes. -/
theorem encode_image_total_valid_base64
    (jpegSave : PILImage → Nat → List Nat) (image : PILImage) (quality : Nat)
    (hbytes : ∀ i q, ∀ b ∈ jpegSave i q, b < 256) :
    ((if image.mode ≠ "RGB" then image.convert "RGB" else image).mode = "RGB"
        ∨ image.mode = "RGB")
      ∧ (∀ c ∈ (encode_image jpegSave image quality).data, c.toNat < 128)
      ∧ b64decode (encode_image jpegSave image quality).data
          = some (jpegSave
              (if image.mode ≠ "RGB" then image.convert "RGB" else image)
              quality) := by
  refine ⟨?_, ?_, ?_⟩
  · by_cases hm : image.mode = "RGB"
    · exact Or.inr hm
    · exact Or.inl (by simp [hm, PILImage.convert])
  · intro c hc
    exact b64encode_ascii _ (hbytes _ _) c (by simpa [encode_image] using hc)
  · simpa [encode_image] using b64decode_b64encode _ (hbytes _ _)

/-- Witness for `encode_image_total_valid_base64`: a grayscale one-pixel
image and a stub JPEG encoder. -/
theorem encode_image_total_valid_base64_witness :
    b64decode (encode_image (fun _ _ => [7, 255]) ⟨"L", [7]⟩ 80).data
      = some [7, 255] := by
  have hb : ∀ (i : PILImage) (q : Nat),
      ∀ b ∈ (fun (_ : PILImage) (_ : Nat) => [7, 255]) i q, b < 256 := by
    intro i q
    show ∀ b ∈ ([7, 255] : List Nat), b < 256
    decide
  exact (encode_image_total_valid_base64 (fun _ _ => [7, 255]) ⟨"L", [7]⟩ 80 hb).2.2

/-! ## JSONL construction: json.dump and json.loads

The records the conversion loop writes contain only strings, arrays and
objects (never numbers, booleans or null), so the embedded JSON fragment is
exactly that.  `json.dump` is embedded with its notebook-relevant defaults:
`ensure_ascii=True` (characters outside printable ASCII escaped as `\\uXXXX`,
astral characters as surrogate pairs, the usual two-character escapes for
quote, backslash and control characters), separators `", "` and `": "`, keys
in insertion order.  The parser below is `json.loads` restricted to the exact
sublanguage `json.dump` emits (no insignificant whitespace, no lone
surrogates — the latter are unrepresentable in Lean `Char` and never
produced by the serializer). -/

inductive Json where
  | str : String → Json
  | arr : List Json → Json
  | obj : List (String × Json) → Json
deriving Repr

/-- Lower-case hexadecimal digit, `n < 16`. -/
def hexDigit (n : Nat) : Char :=
  if n < 10 then Char.ofNat (48 + n) else Char.ofNat (87 + n)

/-- The four hex digits of a code unit `n < 65536`. -/
def hexQuad (n : Nat) : List Char :=
  [hexDigit (n / 4096 % 16), hexDigit (n / 256 % 16),
   hexDigit (n / 16 % 16), hexDigit (n % 16)]

/-- `\uXXXX` escape of a code unit `n < 65536`. -/
def uEscape (n : Nat) : List Char :=
  '\\' :: 'u' :: hexQuad n

/-- `json.dump`'s `ensure_ascii` escaping of one character. -/
def escapeChar (c : Char) : List Char :=
  if c = '"' then ['\\', '"']
  else if c = '\\' then ['\\', '\\']
  else if c = '\n' then ['\\', 'n']
  else if c = '\r' then ['\\', 'r']
  else if c = '\t' then ['\\', 't']
  else if c.toNat = 8 then ['\\', 'b']
  else if c.toNat = 12 then ['\\', 'f']
  else if 32 ≤ c.toNat ∧ c.toNat ≤ 126 then [c]
  else if c.toNat < 65536 then uEscape c.toNat
  else uEscape (55296 + (c.toNat - 65536) / 1024)
        ++ uEscape (56320 + (c.toNat - 65536) % 1024)

/-- Escape every character of a string body. -/
def escapeList : List Char → List Char
  | [] => []
  | c :: cs => escapeChar c ++ escapeList cs

/-- A serialized JSON string literal. -/
def serStr (s : String) : List Char :=
  '"' :: escapeList s.data ++ ['"']

mutual

/-- `json.dump` of a value (character list). -/
def serVal : Json → List Char
  | .str s => serStr s
  | .arr l => '[' :: serItems l ++ [']']
  | .obj ms => '\x7b' :: serMembers ms ++ ['\x7d']

/-- Array elements joined by `", "`. -/
def serItems : List Json → List Char
  | [] => []
  | x :: xs => serVal x ++ serItemsTail xs

/-- `", "`-prefixed trailing array elements. -/
def serItemsTail : List Json → List Char
  | [] => []
  | x :: xs => ',' :: ' ' :: serVal x ++ serItemsTail xs

/-- Object members joined by `", "`. -/
def serMembers : List (String × Json) → List Char
  | [] => []
  | m :: ms => serMember m ++ serMembersTail ms

/-- One `"key": value` member. -/
def serMember : String × Json → List Char
  | (k, v) => serStr k ++ ':' :: ' ' :: serVal v

/-- `", "`-prefixed trailing object members. -/
def serMembersTail : List (String × Json) → List Char
  | [] => []
  | m :: ms => ',' :: ' ' :: serMember m ++ serMembersTail ms

end

/-- `json.dump` of a value. -/
def serializeJson (j : Json) : String :=
  String.mk (serVal j)

/-- Value of a hexadecimal digit character (both cases accepted, as
`json.loads` does). -/
def hexVal (c : Char) : Option Nat :=
  if 48 ≤ c.toNat ∧ c.toNat ≤ 57 then some (c.toNat - 48)
  else if 97 ≤ c.toNat ∧ c.toNat ≤ 102 then some (c.toNat - 87)
  else if 65 ≤ c.toNat ∧ c.toNat ≤ 70 then some (c.toNat - 55)
  else none

/-- Decode one escape sequence after a backslash: the decoded character and
the remaining input.  Surrogate-pair escapes are recombined; a lone
surrogate escape is rejected (Lean characters cannot carry one, and the
serializer never emits one). -/
def unescapeOne : List Char → Option (Char × List Char)
  | [] => none
  | e :: rest2 =>
    if e = 'u' then
      match rest2 with
      | h1 :: h2 :: h3 :: h4 :: rest3 =>
        match hexVal h1, hexVal h2, hexVal h3, hexVal h4 with
        | some a, some b, some c2, some d =>
          if 55296 ≤ ((a * 16 + b) * 16 + c2) * 16 + d
              ∧ ((a * 16 + b) * 16 + c2) * 16 + d ≤ 56319 then
            match rest3 with
            | e2 :: u2 :: g1 :: g2 :: g3 :: g4 :: rest4 =>
              if e2 = '\\' ∧ u2 = 'u' then
                match hexVal g1, hexVal g2, hexVal g3, hexVal g4 with
                | some a2, some b2, some c3, some d2 =>
                  if 56320 ≤ ((a2 * 16 + b2) * 16 + c3) * 16 + d2
                      ∧ ((a2 * 16 + b2) * 16 + c3) * 16 + d2 ≤ 57343 then
                    some (Char.ofNat (65536
                        + (((a * 16 + b) * 16 + c2) * 16 + d - 55296) * 1024
                        + (((a2 * 16 + b2) * 16 + c3) * 16 + d2 - 56320)),
                      rest4)
                  else none
                | _, _, _, _ => none
              else none
            | _ => none
          else if 56320 ≤ ((a * 16 + b) * 16 + c2) * 16 + d
              ∧ ((a * 16 + b) * 16 + c2) * 16 + d ≤ 57343 then none
          else some (Char.ofNat (((a * 16 + b) * 16 + c2) * 16 + d), rest3)
        | _, _, _, _ => none
      | _ => none
    else if e = '"' then some ('"', rest2)
    else if e = '\\' then some ('\\', rest2)
    else if e = '/' then some ('/', rest2)
    else if e = 'b' then some (Char.ofNat 8, rest2)
    else if e = 'f' then some (Char.ofNat 12, rest2)
    else if e = 'n' then some ('\n', rest2)
    else if e = 'r' then some ('\r', rest2)
    else if e = 't' then some ('\t', rest2)
    else none

set_option maxRecDepth 16384 in
/-- A decoded escape consumes at least one input character. -/
theorem unescapeOne_length_lt : ∀ (cs : List Char) (dr : Char × List Char),
    unescapeOne cs = some dr → dr.2.length < cs.length := by
  intro cs dr h
  cases cs with
  | nil => simp [unescapeOne] at h
  | cons e rest2 =>
    simp only [unescapeOne] at h
    split_ifs at h
    rotate_left
    · cases h; simp
    · cases h; simp
    · cases h; simp
    · cases h; simp
    · cases h; simp
    · cases h; simp
    · cases h; simp
    · cases h; simp
    · split at h
      · rename_i h1 h2 h3 h4 rest3
        split at h
        · rename_i a b c2 d ha hb hc hd
          split_ifs at h
          · split at h
            · rename_i e2 u2 g1 g2 g3 g4 rest4
              split_ifs at h
              split at h
              · rename_i a2 b2 c3 d2 ha2 hb2 hc2 hd2
                split_ifs at h
                injection h with h
                subst h
                dsimp only
                simp only [List.length_cons]
                omega
              · simp at h
            · simp at h
          · injection h with h
            subst h
            dsimp only
            simp only [List.length_cons]
            omega
        · simp at h
      · simp at h

/-- Parse the body of a JSON string literal after the opening quote, up to and
including the closing quote; returns the decoded characters and the remaining
input. -/
def parseStringBody : List Char → Option (List Char × List Char)
  | [] => none
  | c :: rest =>
    if c = '"' then some ([], rest)
    else if c = '\\' then
      match _h : unescapeOne rest with
      | some dr => (parseStringBody dr.2).map (fun p => (dr.1 :: p.1, p.2))
      | none => none
    else (parseStringBody rest).map (fun p => (c :: p.1, p.2))
termination_by cs => cs.length
decreasing_by
  · simp only [List.length_cons]
    exact Nat.lt_succ_of_lt (unescapeOne_length_lt _ _ _h)
  · simp

mutual

/-- Parse one JSON value of the emitted sublanguage; `fuel` bounds the
nesting work and only needs to exceed the value's `jsize`. -/
def parseVal : Nat → List Char → Option (Json × List Char)
  | 0, _ => none
  | fuel + 1, cs =>
    match cs with
    | [] => none
    | c :: cs1 =>
      if c = '"' then
        (parseStringBody cs1).map (fun p => (Json.str (String.mk p.1), p.2))
      else if c = '[' then
        match cs1 with
        | ']' :: rest => some (Json.arr [], rest)
        | _ => (parseItems fuel cs1).map (fun p => (Json.arr p.1, p.2))
      else if c = '\x7b' then
        match cs1 with
        | '\x7d' :: rest => some (Json.obj [], rest)
        | _ => (parseMembers fuel cs1).map (fun p => (Json.obj p.1, p.2))
      else none

/-- Parse the elements of a nonempty array up to and including `]`. -/
def parseItems : Nat → List Char → Option (List Json × List Char)
  | 0, _ => none
  | fuel + 1, cs =>
    match parseVal fuel cs with
    | some (j, rest) =>
      match rest with
      | ']' :: r => some ([j], r)
      | ',' :: ' ' :: r => (parseItems fuel r).map (fun p => (j :: p.1, p.2))
      | _ => none
    | none => none

/-- Parse the members of a nonempty object up to and including the closing
brace. -/
def parseMembers : Nat → List Char → Option (List (String × Json) × List Char)
  | 0, _ => none
  | fuel + 1, cs =>
    match cs with
    | '"' :: cs1 =>
      match parseStringBody cs1 with
      | some (k, rest1) =>
        match rest1 with
        | ':' :: ' ' :: cs2 =>
          match parseVal fuel cs2 with
          | some (v, rest2) =>
            match rest2 with
            | '\x7d' :: r => some ([(String.mk k, v)], r)
            | ',' :: ' ' :: r =>
              (parseMembers fuel r).map (fun p => ((String.mk k, v) :: p.1, p.2))
            | _ => none
          | none => none
        | _ => none
      | none => none
    | _ => none

end

/-- `json.loads` of a full line of the emitted sublanguage. -/
def parseJsonStr (s : String) : Option Json :=
  match parseVal (s.length + 1) s.data with
  | some (j, []) => some j
  | _ => none

mutual

/-- Fuel measure of a value: every node and list element costs one. -/
def jsize : Json → Nat
  | .str _ => 1
  | .arr l => 1 + jsizeItems l
  | .obj ms => 1 + jsizeMembers ms

/-- Fuel measure of array elements. -/
def jsizeItems : List Json → Nat
  | [] => 0
  | x :: xs => 1 + jsize x + jsizeItems xs

/-- Fuel measure of object members. -/
def jsizeMembers : List (String × Json) → Nat
  | [] => 0
  | m :: ms => 1 + jsize m.2 + jsizeMembers ms

end

/-! ## Theorems: JSON string escaping round-trip -/

/-- Hex digits decode back (digit table). -/
theorem hexVal_hexDigit_fin : ∀ n : Fin 16, hexVal (hexDigit n.val) = some n.val := by
  decide

/-- Hex digits decode back. -/
theorem hexVal_hexDigit {n : Nat} (h : n < 16) : hexVal (hexDigit n) = some n :=
  hexVal_hexDigit_fin ⟨n, h⟩

/-- Unicode scalar values avoid the surrogate range. -/
theorem char_toNat_valid (c : Char) :
    c.toNat < 55296 ∨ (57343 < c.toNat ∧ c.toNat < 1114112) := c.valid

/-- Rebuilding a character from its own code point. -/
theorem char_ofNat_toNat (c : Char) : Char.ofNat c.toNat = c := by
  have hv : c.toNat.isValidChar := c.valid
  apply Char.eq_of_val_eq
  simp only [Char.ofNat, hv, dif_pos, Char.ofNatAux]
  apply UInt32.toBitVec_injective
  apply BitVec.eq_of_toNat_eq
  simp [BitVec.toNat_ofNatLt]
  rfl


/-- Decoding a basic-plane `\uXXXX` escape. -/
theorem unescapeOne_u_bmp (n : Nat) (t : List Char)
    (hn : n < 65536) (hs : ¬(55296 ≤ n ∧ n ≤ 57343)) :
    unescapeOne ('u' :: hexQuad n ++ t) = some (Char.ofNat n, t) := by
  simp only [hexQuad, List.cons_append, List.nil_append, unescapeOne,
    hexVal_hexDigit (show n / 4096 % 16 < 16 by omega),
    hexVal_hexDigit (show n / 256 % 16 < 16 by omega),
    hexVal_hexDigit (show n / 16 % 16 < 16 by omega),
    hexVal_hexDigit (show n % 16 < 16 by omega)]
  have hrec : ((n / 4096 % 16 * 16 + n / 256 % 16) * 16 + n / 16 % 16) * 16
      + n % 16 = n := by omega
  rw [hrec]
  rw [if_neg (show ¬(55296 ≤ n ∧ n ≤ 56319) by omega)]
  rw [if_neg (show ¬(56320 ≤ n ∧ n ≤ 57343) by omega)]
  simp

/-- Decoding a `\uXXXX\uXXXX` surrogate pair (generic code units). -/
theorem unescapeOne_u_pair_gen (n m : Nat) (t : List Char)
    (hn1 : 55296 ≤ n) (hn2 : n ≤ 56319) (hm1 : 56320 ≤ m) (hm2 : m ≤ 57343) :
    unescapeOne ('u' :: hexQuad n ++ ('\\' :: 'u' :: hexQuad m ++ t))
      = some (Char.ofNat (65536 + (n - 55296) * 1024 + (m - 56320)), t) := by
  simp only [hexQuad, List.cons_append, List.nil_append, unescapeOne,
    hexVal_hexDigit (show n / 4096 % 16 < 16 by omega),
    hexVal_hexDigit (show n / 256 % 16 < 16 by omega),
    hexVal_hexDigit (show n / 16 % 16 < 16 by omega),
    hexVal_hexDigit (show n % 16 < 16 by omega),
    hexVal_hexDigit (show m / 4096 % 16 < 16 by omega),
    hexVal_hexDigit (show m / 256 % 16 < 16 by omega),
    hexVal_hexDigit (show m / 16 % 16 < 16 by omega),
    hexVal_hexDigit (show m % 16 < 16 by omega)]
  have hrec1 : ((n / 4096 % 16 * 16 + n / 256 % 16) * 16 + n / 16 % 16) * 16
      + n % 16 = n := by omega
  have hrec2 : ((m / 4096 % 16 * 16 + m / 256 % 16) * 16 + m / 16 % 16) * 16
      + m % 16 = m := by omega
  rw [hrec1, hrec2]
  rw [if_pos (show 55296 ≤ n ∧ n ≤ 56319 by omega)]
  rw [if_pos (show 56320 ≤ m ∧ m ≤ 57343 by omega)]
  simp

/-- Decoding a surrogate-pair escape back into its astral character. -/
theorem unescapeOne_u_pair (c : Char) (t : List Char) (hc : 65536 ≤ c.toNat) :
    unescapeOne ('u' :: hexQuad (55296 + (c.toNat - 65536) / 1024)
        ++ ('\\' :: 'u' :: hexQuad (56320 + (c.toNat - 65536) % 1024) ++ t))
      = some (c, t) := by
  have hval := char_toNat_valid c
  rw [unescapeOne_u_pair_gen _ _ t (by omega) (by omega) (by omega) (by omega)]
  have hcn : 65536 + (55296 + (c.toNat - 65536) / 1024 - 55296) * 1024
      + (56320 + (c.toNat - 65536) % 1024 - 56320) = c.toNat := by omega
  rw [hcn, char_ofNat_toNat]

/-- Unfolding the string parser at a backslash with a known escape decode. -/
theorem parseStringBody_backslash (rest : List Char) (dr : Char × List Char)
    (h : unescapeOne rest = some dr) :
    parseStringBody ('\\' :: rest)
      = (parseStringBody dr.2).map (fun p => (dr.1 :: p.1, p.2)) := by
  conv_lhs => rw [parseStringBody]
  rw [if_neg (by decide), if_pos rfl]
  split
  · rename_i dr2 heq2
    rw [h] at heq2
    cases heq2
    rfl
  · rename_i heq2
    rw [h] at heq2
    cases heq2

/-- The string parser consumes one escaped character and continues. -/
theorem parse_escapeChar (c : Char) (t : List Char) :
    parseStringBody (escapeChar c ++ t)
      = (parseStringBody t).map (fun p => (c :: p.1, p.2)) := by
  have hval := char_toNat_valid c
  unfold escapeChar
  split_ifs with h1 h2 h3 h4 h5 h6 h7 h8 h9
  · subst h1
    simp only [List.cons_append, List.nil_append]
    rw [parseStringBody_backslash _ ('"', t) (by simp [unescapeOne])]
  · subst h2
    simp only [List.cons_append, List.nil_append]
    rw [parseStringBody_backslash _ ('\\', t) (by simp [unescapeOne])]
  · subst h3
    simp only [List.cons_append, List.nil_append]
    rw [parseStringBody_backslash _ ('\n', t) (by simp [unescapeOne])]
  · subst h4
    simp only [List.cons_append, List.nil_append]
    rw [parseStringBody_backslash _ ('\r', t) (by simp [unescapeOne])]
  · subst h5
    simp only [List.cons_append, List.nil_append]
    rw [parseStringBody_backslash _ ('\t', t) (by simp [unescapeOne])]
  · have hc : c = Char.ofNat 8 := by rw [← h6, char_ofNat_toNat]
    subst hc
    simp only [List.cons_append, List.nil_append]
    rw [parseStringBody_backslash _ (Char.ofNat 8, t) (by simp [unescapeOne])]
  · have hc : c = Char.ofNat 12 := by rw [← h7, char_ofNat_toNat]
    subst hc
    simp only [List.cons_append, List.nil_append]
    rw [parseStringBody_backslash _ (Char.ofNat 12, t) (by simp [unescapeOne])]
  · conv_lhs => rw [List.cons_append, List.nil_append, parseStringBody]
    rw [if_neg h1, if_neg h2]
  · rw [show uEscape c.toNat ++ t = '\\' :: ('u' :: hexQuad c.toNat ++ t) by
      simp [uEscape]]
    rw [parseStringBody_backslash _ (Char.ofNat c.toNat, t)
      (unescapeOne_u_bmp c.toNat t h9 (by omega))]
    rw [char_ofNat_toNat]
  · rw [show uEscape (55296 + (c.toNat - 65536) / 1024)
          ++ uEscape (56320 + (c.toNat - 65536) % 1024) ++ t
        = '\\' :: ('u' :: hexQuad (55296 + (c.toNat - 65536) / 1024)
            ++ ('\\' :: 'u' :: hexQuad (56320 + (c.toNat - 65536) % 1024) ++ t)) by
      simp [uEscape]]
    rw [parseStringBody_backslash _ (c, t) (unescapeOne_u_pair c t (by omega))]

/-- Round trip of a whole escaped string body up to the closing quote. -/
theorem parse_escapeList (s t : List Char) :
    parseStringBody (escapeList s ++ ('"' :: t)) = some (s, t) := by
  induction s with
  | nil =>
    rw [escapeList, List.nil_append, parseStringBody]
    rw [if_pos rfl]
  | cons c cs ih =>
    rw [escapeList, List.append_assoc, parse_escapeChar, ih]
    rfl

/-- Every serialized value starts with a quote, bracket or brace. -/
theorem serVal_shape (j : Json) :
    ∃ c t, serVal j = c :: t ∧ (c = '"' ∨ c = '[' ∨ c = '\x7b') := by
  cases j with
  | str s =>
    exact ⟨'"', escapeList s.data ++ ['"'], by simp [serVal, serStr], Or.inl rfl⟩
  | arr l =>
    exact ⟨'[', serItems l ++ [']'], by simp [serVal], Or.inr (Or.inl rfl)⟩
  | obj ms =>
    exact ⟨'\x7b', serMembers ms ++ ['\x7d'], by simp [serVal], Or.inr (Or.inr rfl)⟩

/-- Values have positive fuel measure. -/
theorem jsize_pos (j : Json) : 1 ≤ jsize j := by
  cases j <;> simp [jsize]

/-- Unfolding the value parser at a quote. -/
theorem parseVal_quote (fuel : Nat) (body : List Char) :
    parseVal (fuel + 1) ('"' :: body)
      = (parseStringBody body).map (fun p => (Json.str (String.mk p.1), p.2)) := by
  simp [parseVal]

/-- Unfolding the value parser at `[` when the array is nonempty. -/
theorem parseVal_bracket (fuel : Nat) (body : List Char)
    (hne : body.head? ≠ some ']') (hbody : body ≠ []) :
    parseVal (fuel + 1) ('[' :: body)
      = (parseItems fuel body).map (fun p => (Json.arr p.1, p.2)) := by
  cases body with
  | nil => exact absurd rfl hbody
  | cons c0 t0 =>
    have hc0 : c0 ≠ ']' := by simpa using hne
    simp only [parseVal]
    rw [if_neg (show ¬('[' : Char) = '"' by decide)]
    rw [if_true]
    split
    · rename_i rest heq
      exact absurd (List.head_eq_of_cons_eq heq) hc0
    · rfl

/-- Unfolding the value parser at an opening brace when the object is
nonempty. -/
theorem parseVal_brace (fuel : Nat) (body : List Char)
    (hne : body.head? ≠ some '\x7d') (hbody : body ≠ []) :
    parseVal (fuel + 1) ('\x7b' :: body)
      = (parseMembers fuel body).map (fun p => (Json.obj p.1, p.2)) := by
  cases body with
  | nil => exact absurd rfl hbody
  | cons c0 t0 =>
    have hc0 : c0 ≠ '\x7d' := by simpa using hne
    simp only [parseVal]
    rw [if_neg (show ¬('\x7b' : Char) = '"' by decide)]
    rw [if_neg (show ¬('\x7b' : Char) = '[' by decide)]
    rw [if_true]
    split
    · rename_i rest heq
      exact absurd (List.head_eq_of_cons_eq heq) hc0
    · rfl

/-- Array parser: last element, closing bracket next. -/
theorem parseItems_step_done (fuel : Nat) (cs : List Char) (j : Json)
    (r : List Char) (h : parseVal fuel cs = some (j, ']' :: r)) :
    parseItems (fuel + 1) cs = some ([j], r) := by
  simp only [parseItems, h]

/-- Array parser: element followed by `", "` and further elements. -/
theorem parseItems_step_comma (fuel : Nat) (cs : List Char) (j : Json)
    (r : List Char) (h : parseVal fuel cs = some (j, ',' :: ' ' :: r)) :
    parseItems (fuel + 1) cs
      = (parseItems fuel r).map (fun p => (j :: p.1, p.2)) := by
  simp only [parseItems, h]

/-- Object parser: last member, closing brace next. -/
theorem parseMembers_step_done (fuel : Nat) (cs1 cs2 : List Char)
    (k : List Char) (v : Json) (r : List Char)
    (h1 : parseStringBody cs1 = some (k, ':' :: ' ' :: cs2))
    (h2 : parseVal fuel cs2 = some (v, '\x7d' :: r)) :
    parseMembers (fuel + 1) ('"' :: cs1) = some ([(String.mk k, v)], r) := by
  simp only [parseMembers, h1, h2]

/-- Object parser: member followed by `", "` and further members. -/
theorem parseMembers_step_comma (fuel : Nat) (cs1 cs2 : List Char)
    (k : List Char) (v : Json) (r : List Char)
    (h1 : parseStringBody cs1 = some (k, ':' :: ' ' :: cs2))
    (h2 : parseVal fuel cs2 = some (v, ',' :: ' ' :: r)) :
    parseMembers (fuel + 1) ('"' :: cs1)
      = (parseMembers fuel r).map (fun p => ((String.mk k, v) :: p.1, p.2)) := by
  simp only [parseMembers, h1, h2]

/-- Round trip of the value/array/object parsers over serialized output, by
induction on the fuel. -/
theorem parse_ser_aux : ∀ fuel : Nat,
    (∀ (j : Json) (rest : List Char), jsize j ≤ fuel →
      parseVal fuel (serVal j ++ rest) = some (j, rest))
    ∧ (∀ (x : Json) (xs : List Json) (rest : List Char),
        jsizeItems (x :: xs) ≤ fuel →
        parseItems fuel (serVal x ++ (serItemsTail xs ++ (']' :: rest)))
          = some (x :: xs, rest))
    ∧ (∀ (k : String) (v : Json) (ms : List (String × Json)) (rest : List Char),
        jsizeMembers ((k, v) :: ms) ≤ fuel →
        parseMembers fuel (serStr k ++ (':' :: ' ' :: (serVal v
            ++ (serMembersTail ms ++ ('\x7d' :: rest)))))
          = some ((k, v) :: ms, rest)) := by
  intro fuel
  induction fuel with
  | zero =>
    refine ⟨?_, ?_, ?_⟩
    · intro j rest hsz
      exact absurd hsz (by have := jsize_pos j; omega)
    · intro x xs rest hsz
      exfalso
      simp [jsizeItems] at hsz
    · intro k v ms rest hsz
      exfalso
      simp [jsizeMembers] at hsz
  | succ fuel ih =>
    obtain ⟨iha, ihb, ihc⟩ := ih
    refine ⟨?_, ?_, ?_⟩
    · intro j rest hsz
      cases j with
      | str s =>
        have hshape : serVal (Json.str s) ++ rest
            = '"' :: (escapeList s.data ++ ('"' :: rest)) := by
          simp [serVal, serStr]
        rw [hshape, parseVal_quote, parse_escapeList]
        rfl
      | arr l =>
        cases l with
        | nil =>
          have hshape : serVal (Json.arr []) ++ rest = '[' :: ']' :: rest := by
            simp [serVal, serItems]
          rw [hshape]
          simp [parseVal]
        | cons x xs =>
          obtain ⟨c0, t0, hc0, hc0mem⟩ := serVal_shape x
          have hne : (serVal x ++ (serItemsTail xs ++ (']' :: rest))).head?
              ≠ some ']' := by
            rw [hc0]
            rcases hc0mem with rfl | rfl | rfl <;> simp
          have hbody : serVal x ++ (serItemsTail xs ++ (']' :: rest)) ≠ [] := by
            rw [hc0]
            simp
          have hsz' : jsizeItems (x :: xs) ≤ fuel := by
            simp [jsize, jsizeItems] at hsz ⊢
            omega
          have hshape : serVal (Json.arr (x :: xs)) ++ rest
              = '[' :: (serVal x ++ (serItemsTail xs ++ (']' :: rest))) := by
            simp [serVal, serItems]
          rw [hshape, parseVal_bracket fuel _ hne hbody, ihb x xs rest hsz']
          rfl
      | obj ms =>
        cases ms with
        | nil =>
          have hshape : serVal (Json.obj []) ++ rest = '\x7b' :: '\x7d' :: rest := by
            simp [serVal, serMembers]
          rw [hshape]
          simp [parseVal]
        | cons m ms' =>
          obtain ⟨k, v⟩ := m
          have hne : (serStr k ++ (':' :: ' ' :: (serVal v
              ++ (serMembersTail ms' ++ ('\x7d' :: rest))))).head? ≠ some '\x7d' := by
            simp [serStr]
          have hbody : serStr k ++ (':' :: ' ' :: (serVal v
              ++ (serMembersTail ms' ++ ('\x7d' :: rest)))) ≠ [] := by
            simp [serStr]
          have hsz' : jsizeMembers ((k, v) :: ms') ≤ fuel := by
            simp [jsize, jsizeMembers] at hsz ⊢
            omega
          have hshape : serVal (Json.obj ((k, v) :: ms')) ++ rest
              = '\x7b' :: (serStr k ++ (':' :: ' ' :: (serVal v
                  ++ (serMembersTail ms' ++ ('\x7d' :: rest))))) := by
            simp [serVal, serMembers, serMember]
          rw [hshape, parseVal_brace fuel _ hne hbody, ihc k v ms' rest hsz']
          rfl
    · intro x xs rest hsz
      have hx : jsize x ≤ fuel := by
        simp [jsizeItems] at hsz
        omega
      cases xs with
      | nil =>
        simp only [serItemsTail, List.nil_append]
        exact parseItems_step_done fuel _ x rest (iha x _ hx)
      | cons y ys =>
        have hys : jsizeItems (y :: ys) ≤ fuel := by
          simp [jsizeItems] at hsz ⊢
          omega
        simp only [serItemsTail, List.cons_append, List.append_assoc]
        rw [parseItems_step_comma fuel _ x _ (iha x _ hx)]
        rw [ihb y ys rest hys]
        rfl
    · intro k v ms rest hsz
      have hv : jsize v ≤ fuel := by
        simp [jsizeMembers] at hsz
        omega
      have hshape : serStr k ++ (':' :: ' ' :: (serVal v
            ++ (serMembersTail ms ++ ('\x7d' :: rest))))
          = '"' :: (escapeList k.data ++ ('"' :: (':' :: ' ' :: (serVal v
              ++ (serMembersTail ms ++ ('\x7d' :: rest)))))) := by
        simp [serStr]
      cases ms with
      | nil =>
        rw [hshape]
        rw [parseMembers_step_done fuel _ _ k.data v rest
          (parse_escapeList k.data _) (by simpa [serMembersTail] using iha v _ hv)]
      | cons m2 ms2 =>
        obtain ⟨k2, v2⟩ := m2
        have hms2 : jsizeMembers ((k2, v2) :: ms2) ≤ fuel := by
          simp [jsizeMembers] at hsz ⊢
          omega
        rw [hshape]
        rw [parseMembers_step_comma fuel _ _ k.data v
          (serStr k2 ++ (':' :: ' ' :: (serVal v2
            ++ (serMembersTail ms2 ++ ('\x7d' :: rest)))))
          (parse_escapeList k.data _)
          (by
            have := iha v (',' :: ' ' :: (serStr k2 ++ (':' :: ' ' :: (serVal v2
              ++ (serMembersTail ms2 ++ ('\x7d' :: rest)))))) hv
            simpa [serMembersTail, serMember, List.append_assoc] using this)]
        rw [ihc k2 v2 ms2 rest hms2]
        rfl

/-- The fuel measure is below the serialized length (so the length-based fuel
of `parseJsonStr` always suffices). -/
theorem jsize_le_aux : ∀ n : Nat,
    (∀ j : Json, jsize j ≤ n → jsize j + 1 ≤ (serVal j).length)
    ∧ (∀ l : List Json, jsizeItems l ≤ n →
        jsizeItems l ≤ (serItems l).length
          ∧ jsizeItems l ≤ (serItemsTail l).length)
    ∧ (∀ ms : List (String × Json), jsizeMembers ms ≤ n →
        jsizeMembers ms ≤ (serMembers ms).length
          ∧ jsizeMembers ms ≤ (serMembersTail ms).length) := by
  intro n
  induction n with
  | zero =>
    refine ⟨?_, ?_, ?_⟩
    · intro j hsz
      exact absurd hsz (by have := jsize_pos j; omega)
    · intro l hsz
      cases l with
      | nil => simp [jsizeItems, serItems, serItemsTail]
      | cons x xs => exfalso; simp [jsizeItems] at hsz
    · intro ms hsz
      cases ms with
      | nil => simp [jsizeMembers, serMembers, serMembersTail]
      | cons m ms' => exfalso; simp [jsizeMembers] at hsz
  | succ n ih =>
    obtain ⟨iha, ihb, ihc⟩ := ih
    refine ⟨?_, ?_, ?_⟩
    · intro j hsz
      cases j with
      | str s => simp [jsize, serVal, serStr]
      | arr l =>
        have hl : jsizeItems l ≤ n := by
          simp [jsize] at hsz
          omega
        have := (ihb l hl).1
        simp [jsize, serVal] at *
        omega
      | obj ms =>
        have hms : jsizeMembers ms ≤ n := by
          simp [jsize] at hsz
          omega
        have := (ihc ms hms).1
        simp [jsize, serVal] at *
        omega
    · intro l hsz
      cases l with
      | nil => simp [jsizeItems, serItems, serItemsTail]
      | cons x xs =>
        have hx : jsize x ≤ n := by
          simp [jsizeItems] at hsz
          have := jsize_pos x
          omega
        have hxs : jsizeItems xs ≤ n := by
          simp [jsizeItems] at hsz
          omega
        have h1 := iha x hx
        have h2 := (ihb xs hxs).2
        simp [jsizeItems, serItems, serItemsTail] at *
        omega
    · intro ms hsz
      cases ms with
      | nil => simp [jsizeMembers, serMembers, serMembersTail]
      | cons m ms' =>
        obtain ⟨k, v⟩ := m
        have hv : jsize v ≤ n := by
          simp [jsizeMembers] at hsz
          omega
        have hms' : jsizeMembers ms' ≤ n := by
          simp [jsizeMembers] at hsz
          have := jsize_pos v
          omega
        have h1 := iha v hv
        have h2 := (ihc ms' hms').2
        simp [jsizeMembers, serMembers, serMembersTail, serMember, serStr] at *
        omega

/-- `json.loads` inverts `json.dump` on every record value. -/
theorem parseJsonStr_serializeJson (j : Json) :
    parseJsonStr (serializeJson j) = some j := by
  have hsz : jsize j ≤ (String.mk (serVal j)).length + 1 := by
    have := (jsize_le_aux (jsize j)).1 j (le_refl _)
    have hlen : (String.mk (serVal j)).length = (serVal j).length := rfl
    omega
  have hdata : (String.mk (serVal j)).data = serVal j := rfl
  unfold parseJsonStr serializeJson
  rw [hdata]
  rw [show serVal j = serVal j ++ [] by simp]
  rw [(parse_ser_aux _).1 j [] (by simpa using hsz)]

/-- Hex digit characters are printable. -/
theorem hexDigit_ge_fin : ∀ m : Fin 16, 32 ≤ (hexDigit m.val).toNat := by
  decide

/-- Hex digit characters are printable (Nat form). -/
theorem hexDigit_ge {m : Nat} (h : m < 16) : 32 ≤ (hexDigit m).toNat :=
  hexDigit_ge_fin ⟨m, h⟩

/-- Every character of a `\uXXXX` escape is printable. -/
theorem uEscape_ge (n : Nat) : ∀ x ∈ uEscape n, 32 ≤ x.toNat := by
  intro x hx
  simp only [uEscape, hexQuad, List.mem_cons, List.not_mem_nil, or_false] at hx
  rcases hx with rfl | rfl | rfl | rfl | rfl | rfl
  · decide
  · decide
  · exact hexDigit_ge (by omega)
  · exact hexDigit_ge (by omega)
  · exact hexDigit_ge (by omega)
  · exact hexDigit_ge (by omega)

/-- Every character emitted for one escaped character is printable; in
particular no raw newline ever reaches the output. -/
theorem escapeChar_ge (c : Char) : ∀ x ∈ escapeChar c, 32 ≤ x.toNat := by
  unfold escapeChar
  split_ifs with h1 h2 h3 h4 h5 h6 h7 h8 h9 <;> intro x hx
  · simp only [List.mem_cons, List.not_mem_nil, or_false] at hx
    rcases hx with rfl | rfl <;> decide
  · simp only [List.mem_cons, List.not_mem_nil, or_false] at hx
    rcases hx with rfl | rfl <;> decide
  · simp only [List.mem_cons, List.not_mem_nil, or_false] at hx
    rcases hx with rfl | rfl <;> decide
  · simp only [List.mem_cons, List.not_mem_nil, or_false] at hx
    rcases hx with rfl | rfl <;> decide
  · simp only [List.mem_cons, List.not_mem_nil, or_false] at hx
    rcases hx with rfl | rfl <;> decide
  · simp only [List.mem_cons, List.not_mem_nil, or_false] at hx
    rcases hx with rfl | rfl <;> decide
  · simp only [List.mem_cons, List.not_mem_nil, or_false] at hx
    rcases hx with rfl | rfl <;> decide
  · simp only [List.mem_cons, List.not_mem_nil, or_false] at hx
    subst hx
    omega
  · exact uEscape_ge _ x hx
  · simp only [List.mem_append] at hx
    rcases hx with hx | hx <;> exact uEscape_ge _ x hx

/-- Every character of an escaped string body is printable. -/
theorem escapeList_ge (s : List Char) : ∀ x ∈ escapeList s, 32 ≤ x.toNat := by
  induction s with
  | nil => simp [escapeList]
  | cons c cs ih =>
    intro x hx
    simp only [escapeList, List.mem_append] at hx
    rcases hx with hx | hx
    · exact escapeChar_ge c x hx
    · exact ih x hx

/-- Every character of a serialized string literal is printable. -/
theorem serStr_ge (s : String) : ∀ x ∈ serStr s, 32 ≤ x.toNat := by
  intro x hx
  simp only [serStr, List.mem_cons, List.mem_append, List.not_mem_nil, or_false] at hx
  rcases hx with (rfl | hx) | rfl
  · decide
  · exact escapeList_ge _ x hx
  · decide

/-- Every character `json.dump` emits is printable ASCII-range or above
0x20 — in particular never a newline. -/
theorem ser_chars_aux : ∀ n : Nat,
    (∀ j : Json, jsize j ≤ n → ∀ x ∈ serVal j, 32 ≤ x.toNat)
    ∧ (∀ l : List Json, jsizeItems l ≤ n → ∀ x ∈ serItemsTail l, 32 ≤ x.toNat)
    ∧ (∀ ms : List (String × Json), jsizeMembers ms ≤ n →
        ∀ x ∈ serMembersTail ms, 32 ≤ x.toNat) := by
  intro n
  induction n with
  | zero =>
    refine ⟨?_, ?_, ?_⟩
    · intro j hsz
      exact absurd hsz (by have := jsize_pos j; omega)
    · intro l hsz
      cases l with
      | nil => simp [serItemsTail]
      | cons x xs => exfalso; simp [jsizeItems] at hsz
    · intro ms hsz
      cases ms with
      | nil => simp [serMembersTail]
      | cons m ms' => exfalso; simp [jsizeMembers] at hsz
  | succ n ih =>
    obtain ⟨iha, ihb, ihc⟩ := ih
    refine ⟨?_, ?_, ?_⟩
    · intro j hsz x hx
      cases j with
      | str s => exact serStr_ge s x (by simpa [serVal] using hx)
      | arr l =>
        simp only [serVal, List.mem_cons, List.mem_append,
          List.not_mem_nil, or_false] at hx
        rcases hx with (rfl | hx) | rfl
        · decide
        · cases l with
          | nil => simp [serItems] at hx
          | cons y ys =>
            have hy : jsize y ≤ n := by
              simp [jsize, jsizeItems] at hsz
              omega
            have hys : jsizeItems ys ≤ n := by
              simp [jsize, jsizeItems] at hsz
              have := jsize_pos y
              omega
            simp only [serItems, List.mem_append] at hx
            rcases hx with hx | hx
            · exact iha y hy x hx
            · exact ihb ys hys x hx
        · decide
      | obj ms =>
        simp only [serVal, List.mem_cons, List.mem_append,
          List.not_mem_nil, or_false] at hx
        rcases hx with (rfl | hx) | rfl
        · decide
        · cases ms with
          | nil => simp [serMembers] at hx
          | cons m ms' =>
            obtain ⟨k, v⟩ := m
            have hv : jsize v ≤ n := by
              simp [jsize, jsizeMembers] at hsz
              omega
            have hms' : jsizeMembers ms' ≤ n := by
              simp [jsize, jsizeMembers] at hsz
              have := jsize_pos v
              omega
            simp only [serMembers, serMember, List.mem_append,
              List.mem_cons] at hx
            rcases hx with (hx | rfl | rfl | hx) | hx
            · exact serStr_ge k x hx
            · decide
            · decide
            · exact iha v hv x hx
            · exact ihc ms' hms' x hx
        · decide
    · intro l hsz x hx
      cases l with
      | nil => simp [serItemsTail] at hx
      | cons y ys =>
        have hy : jsize y ≤ n := by
          simp [jsizeItems] at hsz
          omega
        have hys : jsizeItems ys ≤ n := by
          simp [jsizeItems] at hsz
          have := jsize_pos y
          omega
        simp only [serItemsTail, List.mem_cons, List.mem_append] at hx
        rcases hx with (rfl | rfl | hx) | hx
        · decide
        · decide
        · exact iha y hy x hx
        · exact ihb ys hys x hx
    · intro ms hsz x hx
      cases ms with
      | nil => simp [serMembersTail] at hx
      | cons m ms' =>
        obtain ⟨k, v⟩ := m
        have hv : jsize v ≤ n := by
          simp [jsizeMembers] at hsz
          omega
        have hms' : jsizeMembers ms' ≤ n := by
          simp [jsizeMembers] at hsz
          have := jsize_pos v
          omega
        simp only [serMembersTail, serMember, List.mem_cons,
          List.mem_append] at hx
        rcases hx with (rfl | rfl | hx | rfl | rfl | hx) | hx
        · decide
        · decide
        · exact serStr_ge k x hx
        · decide
        · decide
        · exact iha v hv x hx
        · exact ihc ms' hms' x hx

/-- A serialized record occupies a single line: `json.dump` never emits a
newline character. -/
theorem serializeJson_no_newline (j : Json) :
    '\n' ∉ (serializeJson j).data := by
  intro hmem
  have hge := (ser_chars_aux (jsize j)).1 j (le_refl _) '\n'
    (by simpa [serializeJson] using hmem)
  have h10 : ('\n').toNat = 10 := rfl
  omega

/-! ## The dataset-conversion loop -/

/-- Decimal digits of a positive number, most significant first. -/
def natDigitsAux : Nat → List Char → List Char
  | 0, acc => acc
  | n + 1, acc =>
    natDigitsAux ((n + 1) / 10) (Char.ofNat (48 + (n + 1) % 10) :: acc)
termination_by n _ => n
decreasing_by
  simp
  omega

/-- Python `str` of a non-negative integer (the `idx` interpolated into the
user message). -/
def pyStr (n : Nat) : String :=
  if n = 0 then "0" else String.mk (natDigitsAux n [])

/-- The `SYSTEM_PROMPT` string of the conversion cell. -/
def SYSTEM_PROMPT : String :=
  "You are a Vision Language Model specialized in interpreting visual data from chart images.\nYour task is to analyze the provided chart image and respond to queries with concise answers, usually a single word, number, or short phrase.\nThe charts include a variety of types (e.g., line charts, bar charts) and contain colors, labels, and text.\nFocus on delivering accurate, succinct answers based on the visual information. Avoid additional explanation unless absolutely necessary."

/-- The data-URL marker prepended to the base64 image payload
(`base64_prefix` in the source). -/
def base64Head : String := "data:image/jpeg;base64,"

/-- The user-message text: the f-string `Question [{idx}]: {question}`. -/
def questionText (idx : Nat) (question : String) : String :=
  "Question [" ++ pyStr idx ++ "]: " ++ question

/-- `system_message` of the conversion loop. -/
def system_message : Json :=
  .obj [("role", .str "system"), ("content", .str SYSTEM_PROMPT)]

/-- `user_message` of the conversion loop. -/
def user_message (idx : Nat) (question encoded_image : String) : Json :=
  .obj [("role", .str "user"),
    ("content", .arr [
      .obj [("type", .str "text"), ("text", .str (questionText idx question))],
      .obj [("type", .str "image_url"),
        ("image_url", .obj [("url", .str (base64Head ++ encoded_image))])]])]

/-- `assistant_message` of the conversion loop. -/
def assistant_message (answer : String) : Json :=
  .obj [("role", .str "assistant"), ("content", .str answer)]

/-- The record appended to `json_data` for one example. -/
def chartQARecord (idx : Nat) (question encoded_image answer : String) : Json :=
  .obj [("messages", .arr [system_message,
    user_message idx question encoded_image, assistant_message answer])]

/-- Object field access of a parsed value. -/
def Json.getKey : Json → String → Option Json
  | .obj ms, k => ms.lookup k
  | _, _ => none

/-- Array index access of a parsed value. -/
def Json.getIdx : Json → Nat → Option Json
  | .arr l, i => l.get? i
  | _, _ => none

/-- Reading the user question text back out of a record. -/
def recordUserText (j : Json) : Option Json :=
  (j.getKey "messages").bind (fun m => (m.getIdx 1).bind (fun u =>
    (u.getKey "content").bind (fun c => (c.getIdx 0).bind (fun t =>
      t.getKey "text"))))

/-- Reading the assistant answer back out of a record. -/
def recordAnswer (j : Json) : Option Json :=
  (j.getKey "messages").bind (fun m => (m.getIdx 2).bind (fun a =>
    a.getKey "content"))

/-- Reading the image data URL back out of a record. -/
def recordImageUrl (j : Json) : Option Json :=
  (j.getKey "messages").bind (fun m => (m.getIdx 1).bind (fun u =>
    (u.getKey "content").bind (fun c => (c.getIdx 1).bind (fun t =>
      (t.getKey "image_url").bind (fun iu => iu.getKey "url")))))

/-- The write loop after conversion: `json.dump(message, f)` then
`f.write("\n")` for every record. -/
def writeJsonl (records : List Json) : String :=
  records.foldl (fun acc m => acc ++ serializeJson m ++ "\n") ""

/-- A source row of the dataset split, with each field possibly missing
(a missing field raises `KeyError` when accessed). -/
structure RawRow where
  question : Option String
  answer : Option String
  image : Option PILImage

/-- Field access on a row: `KeyError name` when the field is missing. -/
def getRowField {β : Type} (v : Option β) (name : String) : Except PyExc β :=
  match v with
  | some x => .ok x
  | none => .error (.keyError name)

/-- The body of the conversion loop for one example, in the source's access
order: encode the image, then build the user and assistant messages. -/
def processRow (jpegSave : PILImage → Nat → List Nat) (idx : Nat)
    (ex : RawRow) : Except PyExc Json := do
  let img ← getRowField ex.image "image"
  let encoded_image := encode_image jpegSave img 80
  let q ← getRowField ex.question "question"
  let a ← getRowField ex.answer "answer"
  pure (chartQARecord idx q encoded_image a)

/-- One iteration: append the record to `json_data`, or log the failure and
continue with the next example. -/
def convertStep (jpegSave : PILImage → Nat → List Nat)
    (acc : List Json × List (Nat × PyExc)) (ir : Nat × RawRow) :
    List Json × List (Nat × PyExc) :=
  match processRow jpegSave ir.1 ir.2 with
  | .ok record => (acc.1 ++ [record], acc.2)
  | .error e => (acc.1, acc.2 ++ [(ir.1, e)])

/-- The full conversion loop over `enumerate(dataset.itertuples())`:
returns (`json_data`, the log of skipped examples). -/
def convertRows (jpegSave : PILImage → Nat → List Nat) (rows : List RawRow) :
    List Json × List (Nat × PyExc) :=
  rows.enum.foldl (convertStep jpegSave) ([], [])

/-! ## Theorems: JSONL writer round-trip and skip-and-continue -/

/-- String concatenation acts on character data. -/
theorem string_data_append (a b : String) : (a ++ b).data = a.data ++ b.data :=
  rfl

/-- Dropping a concatenated head recovers the tail. -/
theorem string_drop_head (a b : String) :
    String.mk ((a ++ b).data.drop a.length) = b := by
  rw [string_data_append,
    show a.length = a.data.length from rfl, List.drop_left]

/-- C3: for every input row, the conversion loop emits for it exactly one
JSON object that occupies a single line (the serialized record contains no
newline, and the writer adds exactly one), the line parses back (`json.loads`)
to the very record that was written, with fields in the fixed key order of the
construction, and the parsed record yields back the original question (after
stripping the loop's fixed `Question [idx]: ` tag), the original answer, and
the image payload (after stripping the fixed data-URL marker). -/
theorem jsonl_line_round_trip (jpegSave : PILImage → Nat → List Nat)
    (idx : Nat) (question answer : String) (image : PILImage) :
    ('\n' ∉ (serializeJson (chartQARecord idx question
        (encode_image jpegSave image 80) answer)).data)
    ∧ writeJsonl [chartQARecord idx question
          (encode_image jpegSave image 80) answer]
        = serializeJson (chartQARecord idx question
            (encode_image jpegSave image 80) answer) ++ "\n"
    ∧ parseJsonStr (serializeJson (chartQARecord idx question
          (encode_image jpegSave image 80) answer))
        = some (chartQARecord idx question
            (encode_image jpegSave image 80) answer)
    ∧ (parseJsonStr (serializeJson (chartQARecord idx question
          (encode_image jpegSave image 80) answer))).bind recordUserText
        = some (.str (questionText idx question))
    ∧ String.mk ((questionText idx question).data.drop
          ("Question [" ++ pyStr idx ++ "]: ").length)
        = question
    ∧ (parseJsonStr (serializeJson (chartQARecord idx question
          (encode_image jpegSave image 80) answer))).bind recordAnswer
        = some (.str answer)
    ∧ (parseJsonStr (serializeJson (chartQARecord idx question
          (encode_image jpegSave image 80) answer))).bind recordImageUrl
        = some (.str (base64Head ++ encode_image jpegSave image 80))
    ∧ String.mk ((base64Head ++ encode_image jpegSave image 80).data.drop
          base64Head.length)
        = encode_image jpegSave image 80 := by
  refine ⟨serializeJson_no_newline _, ?_, parseJsonStr_serializeJson _,
    ?_, ?_, ?_, ?_, ?_⟩
  · simp [writeJsonl]
  · rw [parseJsonStr_serializeJson]
    rfl
  · exact string_drop_head ("Question [" ++ pyStr idx ++ "]: ") question
  · rw [parseJsonStr_serializeJson]
    rfl
  · rw [parseJsonStr_serializeJson]
    rfl
  · exact string_drop_head base64Head (encode_image jpegSave image 80)

/-- The conversion fold splits into converted records and logged failures. -/
theorem convertRows_foldl_aux (jpegSave : PILImage → Nat → List Nat) :
    ∀ (l : List (Nat × RawRow)) (acc1 : List Json) (acc2 : List (Nat × PyExc)),
      l.foldl (convertStep jpegSave) (acc1, acc2)
        = (acc1 ++ l.filterMap
              (fun ir => (processRow jpegSave ir.1 ir.2).toOption),
           acc2 ++ l.filterMap (fun ir =>
              match processRow jpegSave ir.1 ir.2 with
              | .ok _ => none
              | .error e => some (ir.1, e))) := by
  intro l
  induction l with
  | nil => intro acc1 acc2; simp
  | cons ir l ih =>
    intro acc1 acc2
    rw [List.foldl_cons]
    match hp : processRow jpegSave ir.1 ir.2 with
    | .ok record =>
      rw [show convertStep jpegSave (acc1, acc2) ir = (acc1 ++ [record], acc2) by
        simp [convertStep, hp]]
      rw [ih]
      simp [List.filterMap_cons, hp, Except.toOption]
    | .error e =>
      rw [show convertStep jpegSave (acc1, acc2) ir = (acc1, acc2 ++ [(ir.1, e)]) by
        simp [convertStep, hp]]
      rw [ih]
      simp [List.filterMap_cons, hp, Except.toOption]

/-- A conversion failure for a row is always a missing-field `KeyError`. -/
theorem processRow_error_keyError (jpegSave : PILImage → Nat → List Nat)
    (idx : Nat) (ex : RawRow) (e : PyExc)
    (h : processRow jpegSave idx ex = .error e) :
    e = .keyError "image" ∨ e = .keyError "question" ∨ e = .keyError "answer" := by
  match himg : ex.image, hq : ex.question, ha : ex.answer with
  | none, _, _ =>
    simp [processRow, getRowField, himg, Bind.bind, Except.bind] at h
    exact Or.inl h.symm
  | some img, none, _ =>
    simp [processRow, getRowField, himg, hq, Bind.bind, Except.bind,
      Except.pure] at h
    exact Or.inr (Or.inl h.symm)
  | some img, some q, none =>
    simp [processRow, getRowField, himg, hq, ha, Bind.bind, Except.bind,
      Except.pure] at h
    exact Or.inr (Or.inr h.symm)
  | some img, some q, some a =>
    simp [processRow, getRowField, himg, hq, ha, Bind.bind, Except.bind,
      Except.pure, pure] at h

/-- C5: the conversion loop logs and skips exactly the rows whose processing
raises (always a missing-field `KeyError`), and converts every remaining
well-formed row, in order; a failing row never aborts the conversion of the
others, and the writer emits one serialized line per converted record. -/
theorem convert_skip_and_continue (jpegSave : PILImage → Nat → List Nat)
    (rows : List RawRow) :
    (convertRows jpegSave rows).1
        = rows.enum.filterMap
            (fun ir => (processRow jpegSave ir.1 ir.2).toOption)
    ∧ (convertRows jpegSave rows).2
        = rows.enum.filterMap (fun ir =>
            match processRow jpegSave ir.1 ir.2 with
            | .ok _ => none
            | .error e => some (ir.1, e))
    ∧ (∀ ir ∈ rows.enum, ∀ record, processRow jpegSave ir.1 ir.2 = .ok record →
        record ∈ (convertRows jpegSave rows).1)
    ∧ (∀ p ∈ (convertRows jpegSave rows).2,
        p.2 = .keyError "image" ∨ p.2 = .keyError "question"
          ∨ p.2 = .keyError "answer")
    ∧ writeJsonl (convertRows jpegSave rows).1
        = String.join ((convertRows jpegSave rows).1.map
            (fun m => serializeJson m ++ "\n")) := by
  have hfold := convertRows_foldl_aux jpegSave rows.enum [] []
  have h1 : (convertRows jpegSave rows).1
      = rows.enum.filterMap (fun ir => (processRow jpegSave ir.1 ir.2).toOption) := by
    simp [convertRows, hfold]
  have h2 : (convertRows jpegSave rows).2
      = rows.enum.filterMap (fun ir =>
          match processRow jpegSave ir.1 ir.2 with
          | .ok _ => none
          | .error e => some (ir.1, e)) := by
    simp [convertRows, hfold]
  refine ⟨h1, h2, ?_, ?_, ?_⟩
  · intro ir hir record hrec
    rw [h1]
    rw [List.mem_filterMap]
    exact ⟨ir, hir, by simp [hrec, Except.toOption]⟩
  · intro p hp
    rw [h2, List.mem_filterMap] at hp
    obtain ⟨ir, hir, hmatch⟩ := hp
    match he : processRow jpegSave ir.1 ir.2 with
    | .ok record => rw [he] at hmatch; simp at hmatch
    | .error e =>
      rw [he] at hmatch
      simp at hmatch
      have := processRow_error_keyError jpegSave ir.1 ir.2 e he
      rw [← hmatch]
      exact this
  · rw [writeJsonl, String.join, List.foldl_map]
    congr 1
    funext acc m
    rw [String.append_assoc]

/-- Witness for `jsonl_line_round_trip` on a concrete row. -/
theorem jsonl_line_round_trip_witness :
    parseJsonStr (serializeJson (chartQARecord 0 "Which year?"
        (encode_image (fun _ _ => [7]) ⟨"L", []⟩ 80) "2019"))
      = some (chartQARecord 0 "Which year?"
          (encode_image (fun _ _ => [7]) ⟨"L", []⟩ 80) "2019") :=
  (jsonl_line_round_trip (fun _ _ => [7]) 0 "Which year?" "2019" ⟨"L", []⟩).2.2.1

/-- Witness for `convert_skip_and_continue`: a well-formed row is still
converted although the row before it is missing its question field. -/
theorem convert_skip_and_continue_witness :
    chartQARecord 1 "q" (encode_image (fun _ _ => [7]) ⟨"RGB", [0]⟩ 80) "a"
      ∈ (convertRows (fun _ _ => [7])
          [⟨none, some "a0", some ⟨"RGB", [0]⟩⟩,
           ⟨some "q", some "a", some ⟨"RGB", [0]⟩⟩]).1 :=
  (convert_skip_and_continue (fun _ _ => [7])
      [⟨none, some "a0", some ⟨"RGB", [0]⟩⟩,
       ⟨some "q", some "a", some ⟨"RGB", [0]⟩⟩]).2.2.1
    (1, ⟨some "q", some "a", some ⟨"RGB", [0]⟩⟩)
    (by simp [List.enum])
    (chartQARecord 1 "q" (encode_image (fun _ _ => [7]) ⟨"RGB", [0]⟩ 80) "a")
    rfl
